import Mathlib

/-!
Verification of the session-scoped Retrieval Context Engine
(`services/rag_store.py` and `services/debate_engine.py`).

Texts are modelled as `List Char` (Python strings are sequences of code
points), timestamps as `Int` (only order comparisons matter), and the FAISS
index by its row count (`ntotal`): `index.add(vecs)` adds one row per
embedded text and a fresh `IndexFlatIP` has zero rows.  The embedding model
and the FAISS search are external libraries; where an operation consumes
their output (the ranked candidate indices of a search, the chunk list
produced by the chunker) that output is passed in as an argument.
-/

/-! ### Chunker (`rag_store._chunk_text`) -/

/-- Python's `" ".join(text.split())`: split on whitespace runs, drop the
empty pieces, re-join with single spaces. -/
def pyNormalize (text : List Char) : List Char :=
  List.intercalate [' '] ((text.splitOnP Char.isWhitespace).filter (fun w => w ≠ []))

/-- Python slice-index normalization: a negative index counts from the end
and the result is clamped into `[0, n]`. -/
def pySliceIdx (n : Nat) (i : Int) : Nat :=
  if i < 0 then (i + n).toNat else min i.toNat n

/-- Python's `text[i:j]` on a sequence of characters. -/
def pySlice (s : List Char) (i j : Int) : List Char :=
  let a := pySliceIdx s.length i
  let b := pySliceIdx s.length j
  (s.drop a).take (b - a)

/-- The `while i < n` loop of `_chunk_text`, with explicit fuel: each
iteration appends `text[i:j]` with `j = min (i + chunk_size) n` and
continues from `i = j - overlap`.  `none` means the fuel ran out with the
loop still running (the Python loop has no other exit while `i < n`). -/
def chunkLoopFuel (text : List Char) (size overlap : Int) : Nat → Int → Option (List (List Char))
  | 0, _ => none
  | fuel + 1, i =>
    if i < (text.length : Int) then
      let j := min (i + size) (text.length : Int)
      (chunkLoopFuel text size overlap fuel (j - overlap)).map (fun rest => pySlice text i j :: rest)
    else
      some []

/-- Model of `_chunk_text(text, chunk_size, overlap)`: normalize whitespace, run the
chunking loop, and keep only pieces containing a non-whitespace character
(`if c.strip()`). -/
def chunkTextFuel (text : List Char) (size overlap : Int) (fuel : Nat) : Option (List (List Char)) :=
  (chunkLoopFuel (pyNormalize text) size overlap fuel 0).map
    (List.filter (fun c => c.any (fun ch => !ch.isWhitespace)))

/-- Core divergence lemma: when `1 ≤ overlap`, the loop guard `i < n` is
invariant across iterations — the next position `min (i + size) n - overlap`
is again `< n` — so the loop never reaches its exit and every finite fuel is
exhausted. -/
theorem chunkLoopFuel_eq_none (text : List Char) (size overlap : Int)
    (hov : 1 ≤ overlap) :
    ∀ (fuel : Nat) (i : Int), i < (text.length : Int) →
      chunkLoopFuel text size overlap fuel i = none := by
  intro fuel
  induction fuel with
  | zero => intro i _; rfl
  | succ fuel ih =>
    intro i hi
    have hnext : min (i + size) (text.length : Int) - overlap < (text.length : Int) := by
      have h1 : min (i + size) (text.length : Int) ≤ (text.length : Int) := min_le_right _ _
      omega
    simp only [chunkLoopFuel, if_pos hi, ih _ hnext, Option.map_none']

/-- Claim C1: for every text, every `size > 0` and every `overlap < size`,
`_chunk_text` terminates and covers the normalized input.  The code violates
the termination half: whenever the normalized text is non-empty and
`overlap ≥ 1` (true in particular for the defaults `size = 800`,
`overlap = 120`, which satisfy `overlap < size`), the loop guard stays true
forever and `_chunk_text` never returns, for any amount of fuel. -/
theorem chunk_text_diverges_on_nonempty_input (text : List Char) (size overlap : Int)
    (hov : 1 ≤ overlap) (hne : 0 < (pyNormalize text).length) :
    ∀ fuel : Nat, chunkTextFuel text size overlap fuel = none := by
  intro fuel
  unfold chunkTextFuel
  rw [chunkLoopFuel_eq_none (pyNormalize text) size overlap hov fuel 0 (by exact_mod_cast hne)]
  rfl

/-- Witness for C1: the concrete input `"a"` with the default parameters
`size = 800`, `overlap = 120` (which satisfy `0 < size` and
`overlap < size`) never yields a result. -/
theorem chunk_text_diverges_on_nonempty_input_witness :
    chunkTextFuel ['a'] 800 120 1000 = none :=
  chunk_text_diverges_on_nonempty_input ['a'] 800 120 (by norm_num) (by decide) 1000

/-- A 1000-character document (no whitespace, so normalization keeps all
1000 characters). -/
def doc1000 : List Char := List.replicate 1000 'a'

set_option maxRecDepth 10000 in
/-- Claim C7: ingesting a 1000-character document with `size = 800`,
`overlap = 120` produces exactly 2 chunks covering `[0,800)` and
`[680,1000)`.  The code instead never returns on this input: the loop
visits `i = 0, 680, 880, 880, 880, …` (from `i = 880` the next position is
`min (880 + 800) 1000 - 120 = 880` again), so no amount of fuel makes
`_chunk_text` produce a result at all, let alone two chunks. -/
theorem chunk_text_1000_800_120_never_returns :
    ∀ fuel : Nat, chunkTextFuel doc1000 800 120 fuel = none := by
  intro fuel
  unfold chunkTextFuel
  rw [chunkLoopFuel_eq_none (pyNormalize doc1000) 800 120 (by norm_num) fuel 0 (by decide)]
  rfl

/-! ### Session Store (`rag_store.add_doc`, `list_docs`, `delete_all_for_owner`, `query`) -/

/-- Python's `a or b` for strings: `b` when `a` is `None` or empty. -/
def pyOrOptStr (a : Option String) (b : String) : String :=
  match a with
  | some s => if s = "" then b else s
  | none => b

/-- One entry of a store's `chunks` list. -/
structure Chunk where
  owner : String
  title : String
  filename : String
  chunkIndex : Nat
  text : List Char
deriving DecidableEq

/-- A per-session store: metadata list, FAISS index (modelled by its row
count `ntotal`), embedding dimensionality, last-used timestamp.  The
per-store lock serializes operations, so the sequential model below covers
every observable interleaving. -/
structure Store where
  chunks : List Chunk
  rowCount : Nat
  dim : Nat
  lastUsed : Int
deriving DecidableEq

/-- A fresh store as built by `_get_or_create_store`. -/
def initStore (t : Int) : Store :=
  { chunks := [], rowCount := 0, dim := 384, lastUsed := t }

/-- Model of `add_doc` after text extraction and chunking (the chunk list produced by
`_chunk_text` is passed in; `_embed` turns it into one vector per chunk):
on an empty chunk list only `last_used` is touched, otherwise the vectors
are added to the index and one metadata entry per chunk is appended with
`chunk_index = base + i`, `base = len(chunks)` before the append. -/
def add_doc_chunks (store : Store) (owner : String) (filename : String) (title : Option String)
    (chunks : List (List Char)) (now : Int) : Store :=
  if chunks = [] then { store with lastUsed := now }
  else
    let base := store.chunks.length
    { store with
      rowCount := store.rowCount + chunks.length
      chunks := store.chunks ++ chunks.enum.map (fun ic =>
        { owner := owner
          title := pyOrOptStr title filename
          filename := filename
          chunkIndex := base + ic.1
          text := ic.2 })
      lastUsed := now }

/-- Model of `delete_all_for_owner`: keep the chunks of other owners and rebuild the
index from their texts (an empty remainder gets a fresh empty index, also
with `keep.length = 0` rows). -/
def delete_all_for_owner (store : Store) (owner : String) (now : Int) : Store :=
  let keep := store.chunks.filter (fun c => c.owner != owner)
  { store with chunks := keep, rowCount := keep.length, lastUsed := now }

/-- The store operations of the public API.  `list_docs` and `query` only
read the chunk list and index; their sole mutation is `last_used`. -/
inductive StoreOp
  | addDoc (owner filename : String) (title : Option String) (chunks : List (List Char)) (now : Int)
  | deleteAllForOwner (owner : String) (now : Int)
  | listDocs (now : Int)
  | runQuery (now : Int)
deriving DecidableEq

/-- Effect of one operation on the store state. -/
def execOp (s : Store) : StoreOp → Store
  | .addDoc owner filename title chunks now => add_doc_chunks s owner filename title chunks now
  | .deleteAllForOwner owner now => delete_all_for_owner s owner now
  | .listDocs now => { s with lastUsed := now }
  | .runQuery now => { s with lastUsed := now }

/-- Effect of a sequence of operations, first operation first. -/
def execOps (s : Store) (ops : List StoreOp) : Store :=
  ops.foldl execOp s

/-- Every single operation preserves `len(chunks) = index.row_count`. -/
theorem execOp_preserves_len_eq_rows (s : Store) (op : StoreOp)
    (h : s.chunks.length = s.rowCount) :
    (execOp s op).chunks.length = (execOp s op).rowCount := by
  cases op with
  | addDoc owner filename title chunks now =>
    by_cases hc : chunks = []
    · simp [execOp, add_doc_chunks, hc, h]
    · simp [execOp, add_doc_chunks, hc, h]
  | deleteAllForOwner owner now => simp [execOp, delete_all_for_owner]
  | listDocs now => simpa [execOp] using h
  | runQuery now => simpa [execOp] using h

/-- Claim C6: after any sequence of `add_doc`, `list_docs`,
`delete_all_for_owner` and `query` operations on a fresh store, the length
of the chunk list equals the row count of the similarity index.  (Every
point between operations is the final state of some prefix, and prefixes
are themselves operation sequences, so this covers all observable
states.) -/
theorem store_chunks_length_eq_row_count (t : Int) (ops : List StoreOp) :
    (execOps (initStore t) ops).chunks.length = (execOps (initStore t) ops).rowCount := by
  suffices h : ∀ s : Store, s.chunks.length = s.rowCount →
      (execOps s ops).chunks.length = (execOps s ops).rowCount by
    exact h (initStore t) rfl
  induction ops with
  | nil => intro s hs; simpa [execOps] using hs
  | cons op rest ih =>
    intro s hs
    have h1 := execOp_preserves_len_eq_rows s op hs
    simpa [execOps, List.foldl_cons] using ih (execOp s op) h1

/-- Recognizer for `add_doc` operations. -/
def StoreOp.isAddDoc : StoreOp → Bool
  | .addDoc .. => true
  | _ => false

/-- An `add_doc` call keeps the invariant that the stored `chunk_index` fields are
exactly the list positions `0, 1, …, len - 1`. -/
theorem add_doc_chunks_positions (s : Store) (owner filename : String) (title : Option String)
    (cs : List (List Char)) (now : Int)
    (h : s.chunks.map Chunk.chunkIndex = List.range s.chunks.length) :
    (add_doc_chunks s owner filename title cs now).chunks.map Chunk.chunkIndex
      = List.range (add_doc_chunks s owner filename title cs now).chunks.length := by
  by_cases hc : cs = []
  · simp [add_doc_chunks, hc, h]
  · simp only [add_doc_chunks, if_neg hc, List.map_append, List.length_append, h,
      List.map_map, List.length_map, List.enum_length]
    rw [List.range_add]
    congr 1
    rw [← List.enum_map_fst cs, List.map_map]
    rfl

/-- Claim C8 (amended): in every store state reachable from a fresh store by
`add_doc` operations alone, the `chunk_index` fields are, in list order,
exactly `0, 1, …, len - 1`, hence strictly increasing and pairwise
distinct. -/
theorem chunk_index_strictly_increasing_adds_only (t : Int) (ops : List StoreOp)
    (h : ∀ op ∈ ops, op.isAddDoc = true) :
    List.Pairwise (· < ·) ((execOps (initStore t) ops).chunks.map Chunk.chunkIndex) := by
  suffices h2 : ∀ s : Store, s.chunks.map Chunk.chunkIndex = List.range s.chunks.length →
      (execOps s ops).chunks.map Chunk.chunkIndex
        = List.range (execOps s ops).chunks.length by
    rw [h2 (initStore t) (by simp [initStore])]
    exact List.pairwise_lt_range _
  induction ops with
  | nil => intro s hs; simpa [execOps] using hs
  | cons op rest ih =>
    intro s hs
    cases op with
    | addDoc owner filename title cs now =>
      have h1 := add_doc_chunks_positions s owner filename title cs now hs
      have hrest : ∀ op ∈ rest, op.isAddDoc = true := fun o ho => h o (List.mem_cons_of_mem _ ho)
      simpa [execOps, List.foldl_cons, execOp] using
        (by
          have := ih hrest (add_doc_chunks s owner filename title cs now) h1
          simpa [execOps] using this)
    | deleteAllForOwner owner now =>
      exact absurd (h _ (List.mem_cons_self _ _)) (by simp [StoreOp.isAddDoc])
    | listDocs now =>
      exact absurd (h _ (List.mem_cons_self _ _)) (by simp [StoreOp.isAddDoc])
    | runQuery now =>
      exact absurd (h _ (List.mem_cons_self _ _)) (by simp [StoreOp.isAddDoc])

/-- Witness for C8 (amended): two concrete `add_doc` calls leave the
indices `[0, 1, 2]`, strictly increasing. -/
theorem chunk_index_strictly_increasing_adds_only_witness :
    List.Pairwise (· < ·)
      ((execOps (initStore 0)
        [StoreOp.addDoc "alice" "f.txt" none [['x'], ['y']] 1,
         StoreOp.addDoc "bob" "g.txt" none [['z']] 2]).chunks.map Chunk.chunkIndex) :=
  chunk_index_strictly_increasing_adds_only 0
    [StoreOp.addDoc "alice" "f.txt" none [['x'], ['y']] 1,
     StoreOp.addDoc "bob" "g.txt" none [['z']] 2]
    (by decide)

/-- Counterexample to C8 as stated: the claim quantifies over sequences of
`add_doc` and `delete_all_for_owner`.  After `add_doc` for owner `"a"`
(index 0), `add_doc` for owner `"b"` (index 1), `delete_all_for_owner "a"`
(leaving `[1]`), a further `add_doc` for owner `"c"` computes its base from
the list length 1 and appends index 1 again, leaving indices `[1, 1]` —
neither increasing nor pairwise distinct. -/
theorem chunk_index_not_monotone_counterexample :
    ((execOps (initStore 0)
      [StoreOp.addDoc "a" "f.txt" none [['x']] 0,
       StoreOp.addDoc "b" "f.txt" none [['y']] 0,
       StoreOp.deleteAllForOwner "a" 0,
       StoreOp.addDoc "c" "f.txt" none [['z']] 0]).chunks.map Chunk.chunkIndex) = [1, 1]
    ∧ ¬ List.Pairwise (· < ·)
      ((execOps (initStore 0)
        [StoreOp.addDoc "a" "f.txt" none [['x']] 0,
         StoreOp.addDoc "b" "f.txt" none [['y']] 0,
         StoreOp.deleteAllForOwner "a" 0,
         StoreOp.addDoc "c" "f.txt" none [['z']] 0]).chunks.map Chunk.chunkIndex) := by
  constructor
  · decide
  · decide

/-! ### Retrieval query (`rag_store.query`) -/

/-- One hit returned by `query`. -/
structure Hit where
  title : String
  owner : String
  filename : String
  chunkIndex : Nat
  snippet : List Char
deriving DecidableEq

/-- The hit built from a chunk record: snippet truncated to 600
characters. -/
def mkHit (c : Chunk) : Hit :=
  { title := c.title, owner := c.owner, filename := c.filename,
    chunkIndex := c.chunkIndex, snippet := c.text.take 600 }

/-- The `for idx in I[0]` loop of `query`: skip negative indices, skip
candidates failing the owner filter (only when `allowed_owners` is
non-empty), append a hit otherwise, and stop as soon as `k` hits are
collected.  An index beyond the chunk list would raise in Python, modelled
as `none`. -/
def queryLoop (chunks : List Chunk) (allowed : List String) (k : Nat) :
    List Int → List Hit → Option (List Hit)
  | [], hits => some hits
  | idx :: rest, hits =>
    if idx < 0 then queryLoop chunks allowed k rest hits
    else
      match chunks[idx.toNat]? with
      | none => none
      | some meta =>
        if !allowed.isEmpty && !(allowed.contains meta.owner) && meta.owner != "shared" then
          queryLoop chunks allowed k rest hits
        else
          let hits2 := hits ++ [mkHit meta]
          if k ≤ hits2.length then some hits2
          else queryLoop chunks allowed k rest hits2

/-- Model of `query` after the embedding/search call: `searchResult` is the ranked
index list `I[0]` returned by the FAISS search (of size
`min(3k, len(chunks))`; its exact contents are external).  An empty store
short-circuits to the empty hit list. -/
def query (chunks : List Chunk) (searchResult : List Int) (allowed : List String) (k : Nat) :
    Option (List Hit) :=
  if chunks.isEmpty then some [] else queryLoop chunks allowed k searchResult []

/-- Loop invariant for the owner filter: with a non-empty allowed list,
every hit the loop can ever emit is either carried over from the
accumulator or passed the owner check. -/
theorem queryLoop_owner_mem (chunks : List Chunk) (allowed : List String) (k : Nat)
    (hne : allowed ≠ []) :
    ∀ (I : List Int) (acc hits : List Hit),
      (∀ h ∈ acc, h.owner ∈ allowed ∨ h.owner = "shared") →
      queryLoop chunks allowed k I acc = some hits →
      ∀ h ∈ hits, h.owner ∈ allowed ∨ h.owner = "shared" := by
  intro I
  induction I with
  | nil =>
    intro acc hits hacc heq
    simp only [queryLoop, Option.some.injEq] at heq
    subst heq; exact hacc
  | cons idx rest ih =>
    intro acc hits hacc heq
    simp only [queryLoop] at heq
    by_cases hneg : idx < 0
    · rw [if_pos hneg] at heq
      exact ih acc hits hacc heq
    · rw [if_neg hneg] at heq
      cases hidx : chunks[idx.toNat]? with
      | none => rw [hidx] at heq; exact absurd heq (by simp)
      | some meta =>
        rw [hidx] at heq
        dsimp only at heq
        by_cases hfil :
            (!allowed.isEmpty && !(allowed.contains meta.owner) && meta.owner != "shared") = true
        · rw [if_pos hfil] at heq
          exact ih acc hits hacc heq
        · rw [if_neg hfil] at heq
          have hie : allowed.isEmpty = false := by
            cases allowed with
            | nil => exact absurd rfl hne
            | cons a l => rfl
          have hown : meta.owner ∈ allowed ∨ meta.owner = "shared" := by
            simp [hie] at hfil
            by_cases hm : meta.owner ∈ allowed
            · exact Or.inl hm
            · exact Or.inr (hfil hm)
          have hacc2 : ∀ h ∈ acc ++ [mkHit meta],
              h.owner ∈ allowed ∨ h.owner = "shared" := by
            intro h hh
            rcases List.mem_append.mp hh with h1 | h2
            · exact hacc h h1
            · simp only [List.mem_singleton] at h2
              subst h2
              simpa [mkHit] using hown
          by_cases hk : k ≤ (acc ++ [mkHit meta]).length
          · rw [if_pos hk] at heq
            simp only [Option.some.injEq] at heq
            subst heq; exact hacc2
          · rw [if_neg hk] at heq
            exact ih _ hits hacc2 heq

/-- Claim C2 (amended): for every NON-EMPTY `allowed_owners` list, every hit
returned by `query` has an owner in the allowed list or equal to
`"shared"`.  (The non-emptiness precondition is required: the empty list
disables the filter, see the counterexample.) -/
theorem query_hits_owner_allowed_or_shared (chunks : List Chunk) (searchResult : List Int)
    (allowed : List String) (k : Nat) (hne : allowed ≠ []) (hits : List Hit)
    (hq : query chunks searchResult allowed k = some hits) :
    ∀ h ∈ hits, h.owner ∈ allowed ∨ h.owner = "shared" := by
  unfold query at hq
  by_cases hc : chunks.isEmpty
  · rw [if_pos hc] at hq
    simp only [Option.some.injEq] at hq
    subst hq
    intro h hh
    exact absurd hh (List.not_mem_nil h)
  · rw [if_neg hc] at hq
    exact queryLoop_owner_mem chunks allowed k hne searchResult [] hits
      (by intro h hh; exact absurd hh (List.not_mem_nil h)) hq

/-- Witness for C2 (amended): a concrete query over one `"alice"`-owned
chunk with `allowed_owners = ["alice"]` returns it, and its owner is
allowed. -/
theorem query_hits_owner_allowed_or_shared_witness :
    ({ title := "t", owner := "alice", filename := "f", chunkIndex := 0,
       snippet := ['h'] } : Hit).owner ∈ ["alice"]
    ∨ ({ title := "t", owner := "alice", filename := "f", chunkIndex := 0,
         snippet := ['h'] } : Hit).owner = "shared" :=
  query_hits_owner_allowed_or_shared
    [{ owner := "alice", title := "t", filename := "f", chunkIndex := 0, text := ['h'] }]
    [0] ["alice"] 4 (by decide)
    [{ title := "t", owner := "alice", filename := "f", chunkIndex := 0, snippet := ['h'] }]
    (by decide)
    { title := "t", owner := "alice", filename := "f", chunkIndex := 0, snippet := ['h'] }
    (by simp)

/-- Counterexample to C2 as stated for ALL lists of allowed owners: with
`allowed_owners = []` the owner filter is skipped (`if allowed_owners and
…`), so a hit owned by `"alice"` is returned even though `"alice"` is
neither in the (empty) allowed set nor `"shared"`. -/
theorem query_empty_allowed_leaks_owner_counterexample :
    query [{ owner := "alice", title := "t", filename := "f", chunkIndex := 0, text := ['h'] }]
        [0] ([] : List String) 4
      = some [{ title := "t", owner := "alice", filename := "f", chunkIndex := 0,
                snippet := ['h'] }]
    ∧ ¬ ("alice" ∈ ([] : List String) ∨ "alice" = "shared") :=
  ⟨by decide, by decide⟩

/-- Modelled from the spec's reading of C10 for comparison: the same query
loop with the owner-filter line removed. -/
def queryLoopNoFilter (chunks : List Chunk) (k : Nat) :
    List Int → List Hit → Option (List Hit)
  | [], hits => some hits
  | idx :: rest, hits =>
    if idx < 0 then queryLoopNoFilter chunks k rest hits
    else
      match chunks[idx.toNat]? with
      | none => none
      | some meta =>
        let hits2 := hits ++ [mkHit meta]
        if k ≤ hits2.length then some hits2
        else queryLoopNoFilter chunks k rest hits2

/-- The query with no owner filtering at all. -/
def queryNoFilter (chunks : List Chunk) (searchResult : List Int) (k : Nat) :
    Option (List Hit) :=
  if chunks.isEmpty then some [] else queryLoopNoFilter chunks k searchResult []

/-- Claim C10: an empty `allowed_owners` list disables the owner filter
entirely — `query` then behaves exactly like the filter-free loop, so
returned hits may carry any owner. -/
theorem query_empty_allowed_disables_filter (chunks : List Chunk) (searchResult : List Int)
    (k : Nat) :
    query chunks searchResult [] k = queryNoFilter chunks searchResult k := by
  unfold query queryNoFilter
  by_cases hc : chunks.isEmpty
  · rw [if_pos hc, if_pos hc]
  · rw [if_neg hc, if_neg hc]
    suffices h : ∀ (I : List Int) (acc : List Hit),
        queryLoop chunks [] k I acc = queryLoopNoFilter chunks k I acc from
      h searchResult []
    intro I
    induction I with
    | nil => intro acc; rfl
    | cons idx rest ih =>
      intro acc
      simp only [queryLoop, queryLoopNoFilter, List.isEmpty_nil, Bool.not_true,
        Bool.false_and, Bool.false_eq_true, if_false]
      by_cases hneg : idx < 0
      · rw [if_pos hneg, if_pos hneg]
        exact ih acc
      · rw [if_neg hneg, if_neg hneg]
        cases hidx : chunks[idx.toNat]? with
        | none => rfl
        | some meta =>
          by_cases hk : k ≤ (acc ++ [mkHit meta]).length
          · simp only [if_pos hk]
          · simp only [if_neg hk]
            exact ih _

/-! ### Store registry and TTL sweeper (`rag_store.start_sweeper`) -/

/-- One sweep tick of the background loop: with `cutoff = now - ttl`, every
registry entry whose `last_used` is strictly below the cutoff is deleted;
the rest survive.  (The registry is a dict keyed by session id; the code
collects `to_del` and deletes those keys, which on an association list with
distinct keys is exactly this filter.) -/
def sweepTick (reg : List (Nat × Store)) (now ttl : Int) : List (Nat × Store) :=
  reg.filter (fun p => !(decide (p.2.lastUsed < now - ttl)))

/-- In an association list whose keys are distinct, two entries with the
same key are the same entry. -/
theorem fst_nodup_mem_eq {α β : Type} :
    ∀ {l : List (α × β)}, (l.map Prod.fst).Nodup →
      ∀ {a : α} {b c : β}, (a, b) ∈ l → (a, c) ∈ l → b = c := by
  intro l
  induction l with
  | nil =>
    intro _ a b c hb _
    exact absurd hb (List.not_mem_nil _)
  | cons p rest ih =>
    intro hnd a b c hb hc
    simp only [List.map_cons, List.nodup_cons] at hnd
    rcases List.mem_cons.mp hb with hb1 | hb2 <;> rcases List.mem_cons.mp hc with hc1 | hc2
    · have hbc : (a, b) = (a, c) := hb1.trans hc1.symm
      exact ((Prod.mk.injEq _ _ _ _).mp hbc).2
    · exfalso
      apply hnd.1
      rw [← hb1]
      exact List.mem_map.mpr ⟨(a, c), hc2, rfl⟩
    · exfalso
      apply hnd.1
      rw [← hc1]
      exact List.mem_map.mpr ⟨(a, b), hb2, rfl⟩
    · exact ih hnd.2 hb2 hc2

/-- Claim C9: immediately after a sweep tick with `cutoff = now - ttl`,
every store whose last-used timestamp is strictly older than the cutoff is
absent from the registry, and every store whose last-used timestamp is
within the window (at or after the cutoff) is still present. -/
theorem sweep_tick_removes_stale_keeps_fresh
    (reg : List (Nat × Store)) (now ttl : Int) (sid : Nat) (st : Store)
    (hnodup : (reg.map Prod.fst).Nodup) (hmem : (sid, st) ∈ reg) :
    (st.lastUsed < now - ttl → sid ∉ (sweepTick reg now ttl).map Prod.fst) ∧
    (now - ttl ≤ st.lastUsed → (sid, st) ∈ sweepTick reg now ttl) := by
  constructor
  · intro hold hsin
    rcases List.mem_map.mp hsin with ⟨p, hp, hpfst⟩
    rcases List.mem_filter.mp hp with ⟨hpreg, hpcond⟩
    have hpeq : (sid, p.2) = p := by
      rw [← hpfst]
    have hsame : p.2 = st := fst_nodup_mem_eq hnodup (hpeq ▸ hpreg) hmem
    rw [hsame] at hpcond
    simp only [Bool.not_eq_true', decide_eq_false_iff_not] at hpcond
    exact hpcond hold
  · intro hfresh
    refine List.mem_filter.mpr ⟨hmem, ?_⟩
    simp only [Bool.not_eq_true', decide_eq_false_iff_not]
    omega

/-- Witness for C9: a registry with a stale store (session 1, last used at
time 0) and a fresh one (session 2, last used at time 90) swept at
`now = 100`, `ttl = 50`: session 1 is gone, session 2 survives. -/
theorem sweep_tick_removes_stale_keeps_fresh_witness :
    (1 ∉ (sweepTick [(1, initStore 0), (2, initStore 90)] 100 50).map Prod.fst)
    ∧ ((2, initStore 90) ∈ sweepTick [(1, initStore 0), (2, initStore 90)] 100 50) := by
  constructor
  · exact (sweep_tick_removes_stale_keeps_fresh
      [(1, initStore 0), (2, initStore 90)] 100 50 1 (initStore 0)
      (by decide) (by simp)).1 (by decide)
  · exact (sweep_tick_removes_stale_keeps_fresh
      [(1, initStore 0), (2, initStore 90)] 100 50 2 (initStore 90)
      (by decide) (by simp)).2 (by decide)

/-! ### Adaptive Mode Decision Engine (`debate_engine.decide_rag_mode`) -/

/-- Python's `a or b` on strings: `b` when `a` is empty. -/
def pyOrStr (a b : String) : String := if a = "" then b else a

/-- A chat history message; missing `role`/`content` fields read through
`h.get(..., "")` become the empty string. -/
structure Msg where
  role : String
  content : String
deriving DecidableEq

/-- A retrieved source dict handed to `decide_rag_mode` — each field is
read via `s.get(...)` and may be absent. -/
structure Source where
  title : Option String
  filename : Option String
  chunkIndex : Option Int
  snippet : Option String
deriving DecidableEq

/-- One classification item: `{"title": ..., "chunk": ..., "snippet": ...}`. -/
structure Item where
  title : String
  chunk : Int
  snippet : String
deriving DecidableEq

/-- Item construction from a source: `s.get("title") or s.get("filename")
or "Document"`, `int(s.get("chunk_index", 0))`, and the snippet (or `""`)
truncated to 700 characters. -/
def mkItem (s : Source) : Item :=
  { title := pyOrOptStr s.title (pyOrOptStr s.filename "Document")
    chunk := s.chunkIndex.getD 0
    snippet := (pyOrOptStr s.snippet "").take 700 }

/-- Model of `next((h["content"] for h in reversed(history) if h["role"].lower() ==
role and h["content"]), "")`. -/
def lastContentWithRole (role : String) (history : List Msg) : String :=
  match history.reverse.find? (fun h => h.role.toLower == role && h.content != "") with
  | some h => h.content
  | none => ""

/-- Model of `claim_context = (last_user or last_assistant or topic or
"").strip()[:600]`. -/
def claimContextOf (topic : String) (history : List Msg) : String :=
  (pyOrStr (lastContentWithRole "user" history)
    (pyOrStr (lastContentWithRole "assistant" history) (pyOrStr topic ""))).trim.take 600

/-- The decision value `{"mode": ..., "cite_style": ...}`. -/
structure RagDecision where
  mode : String
  citeStyle : String
deriving DecidableEq

/-- The decision-cache key.  The code keys the cache by
`sha1(f"{speaker}|{topic}|{claim_context}|{json(items)}")`; the JSON
serialization is injective on the item list and the hash is modelled as
injective, so the key is modelled as the hashed tuple itself. -/
abbrev CacheKey := String × String × String × List Item

/-- The cache key computed by `decide_rag_mode` for given arguments. -/
def decideKey (speaker topic : String) (history : List Msg) (sources : List Source) : CacheKey :=
  (speaker, topic, claimContextOf topic history, sources.map mkItem)

/-- The cache `self.rag_decision_cache`, a dict from key to decision. -/
abbrev DecisionCache := List (CacheKey × RagDecision)

/-- Dict lookup. -/
def cacheLookup (c : DecisionCache) (k : CacheKey) : Option RagDecision :=
  (c.find? (fun p => decide (p.1 = k))).map Prod.snd

/-- Dict assignment `cache[key] = value` (the new binding shadows any older
one). -/
def cacheInsert (k : CacheKey) (v : RagDecision) (c : DecisionCache) : DecisionCache :=
  (k, v) :: c

/-- Outcome of one classifier call, as seen by `decide_rag_mode`'s `try`
block: the call can raise (`failure`), return JSON that
`_json_loads_safe` cannot parse or that is not an object (`malformed`, in
which case `meta or {}` yields `{}` and both id sets are empty), or return
index lists for `support` and `contradict`.  A non-integer entry in those
lists never equals any probe index `i`, so only the integer entries are
modelled. -/
inductive ClassifierOutcome
  | failure
  | malformed
  | ok (support contradict : List Int)
deriving DecidableEq

/-- The result of `decide_rag_mode` together with its side effects: the
updated cache and whether the classifier was invoked. -/
structure DecideOutcome where
  result : RagDecision
  cache : DecisionCache
  invoked : Bool
deriving DecidableEq

/-- The policy applied to the classifier's id sets (the code after the
`try` block): `has_support`/`has_contradict` probe only the in-range
indices `0 ≤ i < len(items)`, discarding out-of-range or malformed
entries; the chosen decision is written to the cache. -/
def decideFromSets (cache : DecisionCache) (key : CacheKey) (nItems : Nat)
    (supportIds contradictIds : List Int) (defaultMode citeStyle : String) : DecideOutcome :=
  let hasSupport := (List.range nItems).any (fun i => supportIds.contains ((i : Nat) : Int))
  let hasContradict := (List.range nItems).any (fun i => contradictIds.contains ((i : Nat) : Int))
  let out : RagDecision :=
    if hasSupport && !hasContradict then
      { mode := if defaultMode ≠ "evidence_cite" then "persona_paraphrase" else "evidence_cite"
        citeStyle := citeStyle }
    else if hasContradict && !hasSupport then
      { mode := "weaponize_spin", citeStyle := citeStyle }
    else
      { mode := defaultMode, citeStyle := citeStyle }
  { result := out, cache := cacheInsert key out cache, invoked := true }

/-- Model of `decide_rag_mode(current_speaker, topic, history, sources,
default_mode, cite_style)`.  The classifier call itself is external; its
outcome for this invocation is the `classifierReply` argument, consumed
only on a cache miss (`invoked` records whether it was consumed).  The
`except` branch absorbs a failing call into the persona default and caches
it, so the function is total: no exception propagates. -/
def decide_rag_mode (cache : DecisionCache) (classifierReply : ClassifierOutcome)
    (currentSpeaker topic : String) (history : List Msg) (sources : List Source)
    (defaultMode citeStyle : String) : DecideOutcome :=
  if sources.isEmpty then
    { result := { mode := defaultMode, citeStyle := citeStyle }, cache := cache, invoked := false }
  else
    let items := sources.map mkItem
    let key : CacheKey := (currentSpeaker, topic, claimContextOf topic history, items)
    match cacheLookup cache key with
    | some v => { result := v, cache := cache, invoked := false }
    | none =>
      match classifierReply with
      | .failure =>
        let out : RagDecision := { mode := defaultMode, citeStyle := citeStyle }
        { result := out, cache := cacheInsert key out cache, invoked := true }
      | .malformed => decideFromSets cache key items.length [] [] defaultMode citeStyle
      | .ok sup con => decideFromSets cache key items.length sup con defaultMode citeStyle

/-- Looking up the key just inserted returns the inserted value. -/
theorem cacheLookup_insert_self (k : CacheKey) (v : RagDecision) (c : DecisionCache) :
    cacheLookup (cacheInsert k v c) k = some v := by
  simp [cacheLookup, cacheInsert, List.find?]

/-- After any call with non-empty sources, the computed key is bound to the
returned result in the returned cache. -/
theorem decide_rag_mode_caches_result (cache : DecisionCache) (r : ClassifierOutcome)
    (speaker topic : String) (history : List Msg) (sources : List Source) (dm cs : String)
    (hs : sources ≠ []) :
    cacheLookup (decide_rag_mode cache r speaker topic history sources dm cs).cache
        (decideKey speaker topic history sources)
      = some (decide_rag_mode cache r speaker topic history sources dm cs).result := by
  have hne : sources.isEmpty = false := by
    cases sources with
    | nil => exact absurd rfl hs
    | cons a l => rfl
  unfold decide_rag_mode
  rw [hne]
  simp only [Bool.false_eq_true, if_false]
  cases hlook : cacheLookup cache (speaker, topic, claimContextOf topic history,
      sources.map mkItem) with
  | some v =>
    simp [decideKey, hlook]
  | none =>
    cases r with
    | failure => simpa [decideKey] using cacheLookup_insert_self _ _ cache
    | malformed => simpa [decideKey, decideFromSets] using cacheLookup_insert_self _ _ cache
    | ok sup con => simpa [decideKey, decideFromSets] using cacheLookup_insert_self _ _ cache

/-- A call that finds its key in the cache returns the cached value
unchanged, without touching the cache and without invoking the
classifier. -/
theorem decide_rag_mode_cache_hit (cache : DecisionCache) (r : ClassifierOutcome)
    (speaker topic : String) (history : List Msg) (sources : List Source) (dm cs : String)
    (v : RagDecision) (hs : sources ≠ [])
    (hv : cacheLookup cache (decideKey speaker topic history sources) = some v) :
    decide_rag_mode cache r speaker topic history sources dm cs
      = { result := v, cache := cache, invoked := false } := by
  have hne : sources.isEmpty = false := by
    cases sources with
    | nil => exact absurd rfl hs
    | cons a l => rfl
  unfold decide_rag_mode
  rw [hne]
  simp only [Bool.false_eq_true, if_false]
  simp only [decideKey] at hv
  rw [hv]

/-- Claim C4: two `decide` calls with identical speaker, topic, claim
context and snippet set (hence identical cache key), both with non-empty
sources, where the second runs on the cache left by the first: the second
call does not invoke the classifier — so across the two calls the
classifier runs at most once, namely at most in the first call — and
returns exactly the first call's `{mode, cite_style}` result. -/
theorem decide_rag_mode_second_call_cached (cache : DecisionCache)
    (r1 r2 : ClassifierOutcome) (speaker topic : String)
    (history1 history2 : List Msg) (sources1 sources2 : List Source) (dm cs : String)
    (h1 : sources1 ≠ []) (h2 : sources2 ≠ [])
    (hkey : decideKey speaker topic history1 sources1
      = decideKey speaker topic history2 sources2) :
    (decide_rag_mode (decide_rag_mode cache r1 speaker topic history1 sources1 dm cs).cache
        r2 speaker topic history2 sources2 dm cs).invoked = false
    ∧ (decide_rag_mode (decide_rag_mode cache r1 speaker topic history1 sources1 dm cs).cache
        r2 speaker topic history2 sources2 dm cs).result
      = (decide_rag_mode cache r1 speaker topic history1 sources1 dm cs).result := by
  have hlook := decide_rag_mode_caches_result cache r1 speaker topic history1 sources1 dm cs h1
  rw [hkey] at hlook
  rw [decide_rag_mode_cache_hit
    (decide_rag_mode cache r1 speaker topic history1 sources1 dm cs).cache
    r2 speaker topic history2 sources2 dm cs
    (decide_rag_mode cache r1 speaker topic history1 sources1 dm cs).result h2 hlook]
  exact ⟨rfl, rfl⟩

/-- Witness for C4: a concrete repeated call (empty cache, classifier
failing both times) — the second call is served from the cache. -/
theorem decide_rag_mode_second_call_cached_witness :
    (decide_rag_mode
        (decide_rag_mode [] ClassifierOutcome.failure "Trump" "tariffs" []
          [{ title := some "t", filename := some "f", chunkIndex := some 0,
             snippet := some "s" }] "persona_paraphrase" "none").cache
        ClassifierOutcome.failure "Trump" "tariffs" []
        [{ title := some "t", filename := some "f", chunkIndex := some 0,
           snippet := some "s" }] "persona_paraphrase" "none").invoked = false
    ∧ (decide_rag_mode
        (decide_rag_mode [] ClassifierOutcome.failure "Trump" "tariffs" []
          [{ title := some "t", filename := some "f", chunkIndex := some 0,
             snippet := some "s" }] "persona_paraphrase" "none").cache
        ClassifierOutcome.failure "Trump" "tariffs" []
        [{ title := some "t", filename := some "f", chunkIndex := some 0,
           snippet := some "s" }] "persona_paraphrase" "none").result
      = (decide_rag_mode [] ClassifierOutcome.failure "Trump" "tariffs" []
          [{ title := some "t", filename := some "f", chunkIndex := some 0,
             snippet := some "s" }] "persona_paraphrase" "none").result :=
  decide_rag_mode_second_call_cached [] ClassifierOutcome.failure ClassifierOutcome.failure
    "Trump" "tariffs" [] []
    [{ title := some "t", filename := some "f", chunkIndex := some 0, snippet := some "s" }]
    [{ title := some "t", filename := some "f", chunkIndex := some 0, snippet := some "s" }]
    "persona_paraphrase" "none" (List.cons_ne_nil _ _) (List.cons_ne_nil _ _) rfl

/-- Claim C5: with non-empty sources and a cache miss, a failing classifier
call (the `except` branch) or a malformed/unparseable reply (parsed as `{}`,
leaving both id sets empty) makes `decide` return exactly
`{default_mode, cite_style}` and store that fallback in the cache under the
computed key.  The model is a total function — the `except` branch absorbs
the failure, so no exception reaches the caller. -/
theorem decide_rag_mode_failure_fallback (cache : DecisionCache) (r : ClassifierOutcome)
    (speaker topic : String) (history : List Msg) (sources : List Source) (dm cs : String)
    (hs : sources ≠ [])
    (hmiss : cacheLookup cache (decideKey speaker topic history sources) = none)
    (hr : r = ClassifierOutcome.failure ∨ r = ClassifierOutcome.malformed) :
    (decide_rag_mode cache r speaker topic history sources dm cs).result
        = { mode := dm, citeStyle := cs }
    ∧ cacheLookup (decide_rag_mode cache r speaker topic history sources dm cs).cache
        (decideKey speaker topic history sources)
      = some { mode := dm, citeStyle := cs } := by
  have hne : sources.isEmpty = false := by
    cases sources with
    | nil => exact absurd rfl hs
    | cons a l => rfl
  unfold decide_rag_mode
  rw [hne]
  simp only [Bool.false_eq_true, if_false]
  simp only [decideKey] at hmiss
  rw [hmiss]
  rcases hr with rfl | rfl
  · exact ⟨rfl, by simpa [decideKey] using cacheLookup_insert_self _ _ cache⟩
  · constructor
    · simp [decideFromSets]
    · simpa [decideKey, decideFromSets] using cacheLookup_insert_self _ _ cache

/-- Witness for C5: concrete failing call on an empty cache. -/
theorem decide_rag_mode_failure_fallback_witness :
    (decide_rag_mode [] ClassifierOutcome.failure "Trump" "tariffs" []
        [{ title := some "t", filename := some "f", chunkIndex := some 0,
           snippet := some "s" }] "persona_paraphrase" "none").result
        = { mode := "persona_paraphrase", citeStyle := "none" }
    ∧ cacheLookup (decide_rag_mode [] ClassifierOutcome.failure "Trump" "tariffs" []
        [{ title := some "t", filename := some "f", chunkIndex := some 0,
           snippet := some "s" }] "persona_paraphrase" "none").cache
        (decideKey "Trump" "tariffs" []
          [{ title := some "t", filename := some "f", chunkIndex := some 0,
             snippet := some "s" }])
      = some { mode := "persona_paraphrase", citeStyle := "none" } :=
  decide_rag_mode_failure_fallback [] ClassifierOutcome.failure "Trump" "tariffs" []
    [{ title := some "t", filename := some "f", chunkIndex := some 0, snippet := some "s" }]
    "persona_paraphrase" "none" (List.cons_ne_nil _ _) rfl (Or.inl rfl)

/-- Claim C3: with non-empty sources and a cache miss, if the classifier's
reply — after discarding out-of-range or malformed indices — marks at least
one snippet as contradicting and none as supporting, `decide` returns mode
`"weaponize_spin"` with the given cite style, regardless of
`default_mode`. -/
theorem decide_rag_mode_contradict_forces_spin (cache : DecisionCache)
    (speaker topic : String) (history : List Msg) (sources : List Source) (dm cs : String)
    (sup con : List Int) (hs : sources ≠ [])
    (hmiss : cacheLookup cache (decideKey speaker topic history sources) = none)
    (hcon : ∃ i : Nat, i < sources.length ∧ con.contains ((i : Nat) : Int) = true)
    (hsup : ∀ i : Nat, i < sources.length → sup.contains ((i : Nat) : Int) = false) :
    (decide_rag_mode cache (ClassifierOutcome.ok sup con) speaker topic history sources dm cs).result
      = { mode := "weaponize_spin", citeStyle := cs } := by
  have hne : sources.isEmpty = false := by
    cases sources with
    | nil => exact absurd rfl hs
    | cons a l => rfl
  unfold decide_rag_mode
  rw [hne]
  simp only [Bool.false_eq_true, if_false]
  simp only [decideKey] at hmiss
  rw [hmiss]
  have hS : ((List.range (sources.map mkItem).length).any
      (fun i => sup.contains ((i : Nat) : Int))) = false := by
    rw [List.length_map]
    exact List.any_eq_false.mpr (fun i hi => by
      rw [List.mem_range] at hi
      rw [hsup i hi]
      exact Bool.false_ne_true)
  have hC : ((List.range (sources.map mkItem).length).any
      (fun i => con.contains ((i : Nat) : Int))) = true := by
    rw [List.length_map]
    rcases hcon with ⟨i, hi, hci⟩
    exact List.any_eq_true.mpr ⟨i, List.mem_range.mpr hi, hci⟩
  simp only [decideFromSets]
  rw [hS, hC]
  rfl

/-- Witness for C3: one source, classifier reply `support = []`,
`contradict = [0]`, persona default `"persona_paraphrase"` — the decision
is forced to `"weaponize_spin"`. -/
theorem decide_rag_mode_contradict_forces_spin_witness :
    (decide_rag_mode [] (ClassifierOutcome.ok [] [0]) "Trump" "tariffs" []
        [{ title := some "t", filename := some "f", chunkIndex := some 0,
           snippet := some "s" }] "persona_paraphrase" "none").result
      = { mode := "weaponize_spin", citeStyle := "none" } :=
  decide_rag_mode_contradict_forces_spin [] "Trump" "tariffs" []
    [{ title := some "t", filename := some "f", chunkIndex := some 0, snippet := some "s" }]
    "persona_paraphrase" "none" [] [0] (List.cons_ne_nil _ _) rfl
    ⟨0, by decide, by decide⟩
    (fun i hi => by
      have h1 : i < 1 := by simpa using hi
      have h0 : i = 0 := by omega
      subst h0
      rfl)
